import Mathlib

/-!
Verification of the node-storage and memoization core of the rsdd
decision-diagram library: a shallow embedding in Lean 4 of the Robin-Hood
unique table (`src/robin_hood.rs`), the lossy LRU apply cache
(`src/manager/cache/lru.rs`), the BDD apply table
(`src/manager/cache/bdd_app.rs`) and the SDD table
(`src/backing_store/sdd_table.rs`), together with proofs and refutations of
the specified properties.

Machine integers are modelled as `Nat` with explicit `% 2^32` and masking
where the Rust code relies on fixed-width `u32` behaviour.  External library
functions that are not part of this repository (the `twox_hash` and `fnv`
hashers, `usize::next_power_of_two`) are modelled as explicit function
parameters or as clearly documented pure functions.  Rust types that belong
to the repository but are not among the provided sources (`repr::bdd`,
`repr::sdd`, the generic `backing_store::robin_hood`, `util::btree`,
`manager::rsbdd_manager`) are modelled from the specification and marked as
such in their doc comments.

The file is organised as: all definitions first, then all theorems.
-/

namespace RobinHood

/-- `HashTableElement` from `src/robin_hood.rs`: four fields (occupied,
offset, hash, idx) packed into a single `u32` word `data`. -/
structure HashTableElement where
  data : Nat
deriving DecidableEq

/-- Generic bit-field getter generated by the `BITFIELD` construct of
`src/robin_hood.rs` for the bit range `[s, e)` of the `u32` field:
`self.data << (size - e) >> (size - e + s)` with `size = 32`; the left shift
on `u32` truncates modulo `2^32`. -/
def getField (data s e : Nat) : Nat :=
  ((data <<< (32 - e)) % 2 ^ 32) >>> (32 - e + s)

/-- Generic bit-field setter generated by the `BITFIELD` construct for the
bit range `[s, e)`:
`mask = ((1 << (e - s)) - 1) << s; data = (data & !mask) | ((val << s) & mask)`.
The bitwise complement `!mask` of a `u32` is `mask ^^^ (2^32 - 1)`. -/
def setField (data s e val : Nat) : Nat :=
  let mask := ((1 <<< (e - s)) - 1) <<< s
  (data &&& (mask ^^^ (2 ^ 32 - 1))) ||| ((val <<< s) &&& mask)

/-- Field `occupied`, bits `[0, 1)`: whether or not the cell is occupied. -/
def HashTableElement.occupied (x : HashTableElement) : Nat := getField x.data 0 1

/-- Field `offset`, bits `[1, 6)`: the distance of this cell from its
preferred location. -/
def HashTableElement.offset (x : HashTableElement) : Nat := getField x.data 1 6

/-- Field `hash`, bits `[6, 10)`: the high-order hash bits of the BDD this
cell maps to. -/
def HashTableElement.hash (x : HashTableElement) : Nat := getField x.data 6 10

/-- Field `idx`, bits `[10, 32)`: the index into the backing store for this
cell. -/
def HashTableElement.idx (x : HashTableElement) : Nat := getField x.data 10 32

/-- Setter for `occupied`. -/
def HashTableElement.set_occupied (x : HashTableElement) (v : Nat) : HashTableElement :=
  ⟨setField x.data 0 1 v⟩

/-- Setter for `offset`. -/
def HashTableElement.set_offset (x : HashTableElement) (v : Nat) : HashTableElement :=
  ⟨setField x.data 1 6 v⟩

/-- Setter for `hash`. -/
def HashTableElement.set_hash (x : HashTableElement) (v : Nat) : HashTableElement :=
  ⟨setField x.data 6 10 v⟩

/-- Setter for `idx`. -/
def HashTableElement.set_idx (x : HashTableElement) (v : Nat) : HashTableElement :=
  ⟨setField x.data 10 32 v⟩

/-- `HashTableElement::new(idx, hash)` from `src/robin_hood.rs`: starts from
an all-zero word, sets `occupied := 1`, `hash := (hash >> 32) as u32` and
`idx := idx`. -/
def HashTableElement.new (idx hash : Nat) : HashTableElement :=
  (((⟨0⟩ : HashTableElement).set_occupied 1).set_hash ((hash >>> 32) % 2 ^ 32)).set_idx idx

/-- Modelled from the spec: `bdd::BddPtr` as used by `src/robin_hood.rs` is
not among the provided sources.  Per spec §3 a node handle carries a variable
label, a sub-table index and a node index (`BddPtr::new(var, tbl_id, idx)`,
`get_var`, `get_subtable`, `get_index`); equality is structural. -/
structure BddPtr where
  var : Nat
  subtable : Nat
  index : Nat
deriving DecidableEq

/-- `BddPtr::new(var, tbl_id, idx)`. -/
def BddPtr.new (var tbl idx : Nat) : BddPtr := ⟨var, tbl, idx⟩

/-- Modelled from the spec: `bdd::ToplessBdd` is not among the provided
sources.  Per spec §3 it is the pair `(low-child, high-child)`; the reserved
GC bits (`GcBits`, never read per spec §9) are omitted. -/
structure ToplessBdd where
  low : BddPtr
  high : BddPtr
deriving DecidableEq

/-- `ToplessBdd::new(low, high, GcBits::new())` with the GC bits omitted. -/
def ToplessBdd.new (low high : BddPtr) : ToplessBdd := ⟨low, high⟩

/-- Fuel-driven helper for `nextPowTwo`: doubles `power` until it reaches
`n`.  The fuel `n` suffices because `power` doubles each step. -/
def nextPowTwoAux : Nat → Nat → Nat → Nat
  | 0, power, _ => power
  | fuel + 1, power, n => if power < n then nextPowTwoAux fuel (2 * power) n else power

/-- Models `usize::next_power_of_two` from the Rust standard library
(external to this repository): the smallest power of two that is greater
than or equal to `n` (with `nextPowTwo 0 = 1`). -/
def nextPowTwo (n : Nat) : Nat := nextPowTwoAux n 1 n

/-- `BackedRobinHoodTable` from `src/robin_hood.rs`: the probe array `tbl`,
the element buffer `elem`, the variable and table id this table belongs to,
the capacity `cap` of `tbl`, and the number `len` of stored elements. -/
structure BackedRobinHoodTable where
  tbl : List HashTableElement
  elem : List ToplessBdd
  var : Nat
  tbl_id : Nat
  cap : Nat
  len : Nat
deriving DecidableEq

/-- `BackedRobinHoodTable::new(sz, var, tbl_id)`:
`tbl_sz = ((sz as f64 * (1.0 + LOAD_FACTOR)) as usize).next_power_of_two()`
with `LOAD_FACTOR = 0.8`; the f64 product `sz * 1.8` truncated to `usize` is
modelled exactly as `sz * 9 / 5`.  The probe array is zeroed. -/
def BackedRobinHoodTable.new (sz var tbl_id : Nat) : BackedRobinHoodTable :=
  let tbl_sz := nextPowTwo (sz * 9 / 5)
  { tbl := List.replicate tbl_sz ⟨0⟩
    elem := []
    var := var
    tbl_id := tbl_id
    cap := tbl_sz
    len := 0 }

/-- `is_occupied`: whether the probe cell at `pos` is occupied. -/
def BackedRobinHoodTable.is_occupied (t : BackedRobinHoodTable) (pos : Nat) : Bool :=
  (t.tbl.getD pos ⟨0⟩).occupied = 1

/-- `get_pos`: the element pointed to by the probe cell at `pos`.  Rust
panics on an out-of-range buffer index; in every reachable state the index
is in range, and the default value is irrelevant. -/
def BackedRobinHoodTable.get_pos (t : BackedRobinHoodTable) (pos : Nat) : ToplessBdd :=
  t.elem.getD (t.tbl.getD pos ⟨0⟩).idx ⟨⟨0, 0, 0⟩, ⟨0, 0, 0⟩⟩

/-- `probe_distance`: the recorded offset of the probe cell at `pos`. -/
def BackedRobinHoodTable.probe_distance (t : BackedRobinHoodTable) (pos : Nat) : Nat :=
  (t.tbl.getD pos ⟨0⟩).offset

/-- The `loop` of `BackedRobinHoodTable::get_or_insert`, made total with
fuel (the Rust loop need not terminate); `none` means fuel exhaustion.
State carried: current probe position, the searching element, the
already-issued pointer `found` (if an element was appended during a swap),
and the mutable fields `tbl`, `elem`, `len`.  Follows the source line by
line: the equality check (4-bit hash, then the full `(low, high)`
comparison), then the Robin-Hood swap when the incumbent is closer to its
home than the searcher, then the offset increment and the step to
`(pos + 1) % cap`; on an unoccupied cell, a fresh element is placed and its
pointer returned unless a swap already happened, in which case `found` is
returned (and the displaced searcher is NOT written back — see the C1
analysis). -/
def goiLoop (low high : BddPtr) (var tbl_id cap : Nat) :
    Nat → Nat → HashTableElement → Option BddPtr → List HashTableElement →
    List ToplessBdd → Nat → Option (BddPtr × List HashTableElement × List ToplessBdd × Nat)
  | 0, _, _, _, _, _, _ => none
  | fuel + 1, pos, searcher, found, tbl, elem, len =>
    let cur := tbl.getD pos ⟨0⟩
    if cur.occupied = 1 then
      if cur.hash = searcher.hash ∧
          (elem.getD cur.idx ⟨⟨0, 0, 0⟩, ⟨0, 0, 0⟩⟩).low = low ∧
          (elem.getD cur.idx ⟨⟨0, 0, 0⟩, ⟨0, 0, 0⟩⟩).high = high then
        some (BddPtr.new var tbl_id cur.idx, tbl, elem, len)
      else if cur.offset < searcher.offset then
        match found with
        | none =>
            goiLoop low high var tbl_id cap fuel ((pos + 1) % cap)
              (cur.set_offset (cur.offset + 1))
              (some (BddPtr.new var tbl_id searcher.idx))
              (tbl.set pos searcher) (elem ++ [ToplessBdd.new low high]) (len + 1)
        | some p =>
            goiLoop low high var tbl_id cap fuel ((pos + 1) % cap)
              (cur.set_offset (cur.offset + 1)) (some p)
              (tbl.set pos searcher) elem len
      else
        let searcher' := searcher.set_offset (searcher.offset + 1)
        goiLoop low high var tbl_id cap fuel ((pos + 1) % cap) searcher' found tbl elem len
    else
      match found with
      | none => some (BddPtr.new var tbl_id searcher.idx, tbl.set pos searcher,
                      elem ++ [ToplessBdd.new low high], len + 1)
      | some p => some (p, tbl, elem, len)

/-- `BackedRobinHoodTable::get_or_insert(low, high)`.  The entry assertion
`((len + 1) as f64 * LOAD_FACTOR) / (cap as f64) < cap as f64` with
`LOAD_FACTOR = 0.8` is modelled exactly as `4 * (len + 1) < 5 * cap * cap`;
a failed assertion (a Rust panic) is modelled as `none`.  The seeded
`twox_hash::XxHash` over the two child handles is external library code and
is passed in as the parameter `h`; `fuel` bounds the probe loop. -/
def BackedRobinHoodTable.get_or_insert (t : BackedRobinHoodTable)
    (h : BddPtr → BddPtr → Nat) (fuel : Nat) (low high : BddPtr) :
    Option (BddPtr × BackedRobinHoodTable) :=
  if 4 * (t.len + 1) < 5 * t.cap * t.cap then
    let hash_v := h low high
    let searcher := HashTableElement.new t.elem.length hash_v
    match goiLoop low high t.var t.tbl_id t.cap fuel (hash_v % t.cap) searcher none
        t.tbl t.elem t.len with
    | none => none
    | some (p, tbl', elem', len') =>
        some (p, { t with tbl := tbl', elem := elem', len := len' })
  else none

/-- The `loop` of `BackedRobinHoodTable::find`, made total with fuel:
identical walk to the insertion loop but read-only, returning `none` at the
first unoccupied cell. -/
def findLoop (low high : BddPtr) (var tbl_id cap : Nat)
    (tbl : List HashTableElement) (elem : List ToplessBdd)
    (searcher : HashTableElement) : Nat → Nat → Option (Option BddPtr)
  | 0, _ => none
  | fuel + 1, pos =>
    let cur := tbl.getD pos ⟨0⟩
    if cur.occupied = 1 then
      if cur.hash = searcher.hash ∧
          (elem.getD cur.idx ⟨⟨0, 0, 0⟩, ⟨0, 0, 0⟩⟩).low = low ∧
          (elem.getD cur.idx ⟨⟨0, 0, 0⟩, ⟨0, 0, 0⟩⟩).high = high then
        some (some (BddPtr.new var tbl_id cur.idx))
      else
        findLoop low high var tbl_id cap tbl elem searcher fuel ((pos + 1) % cap)
    else
      some none

/-- `BackedRobinHoodTable::find(low, high)`: the outer `some` is fuel
adequacy, the inner option is the source's return value. -/
def BackedRobinHoodTable.find (t : BackedRobinHoodTable)
    (h : BddPtr → BddPtr → Nat) (fuel : Nat) (low high : BddPtr) :
    Option (Option BddPtr) :=
  let hash_v := h low high
  let searcher := HashTableElement.new t.elem.length hash_v
  findLoop low high t.var t.tbl_id t.cap t.tbl t.elem searcher fuel (hash_v % t.cap)

/-- `BackedRobinHoodTable::deref(ptr)`: index the element buffer (the
source asserts the pointer belongs to this table, then indexes). -/
def BackedRobinHoodTable.deref (t : BackedRobinHoodTable) (p : BddPtr) : Option ToplessBdd :=
  if p.subtable = t.tbl_id ∧ p.var = t.var then t.elem[p.index]? else none

/-- Concrete hash standing in for the external `twox_hash` in the C1
scenario: the index of the low child. -/
def c1hash : BddPtr → BddPtr → Nat := fun low _ => low.index

/-- First pair inserted in the C1 scenario (home bucket 0). -/
def c1a : BddPtr := BddPtr.new 0 0 0

/-- Second pair inserted in the C1 scenario (home bucket 1). -/
def c1c : BddPtr := BddPtr.new 0 0 1

/-- Third pair inserted in the C1 scenario (home bucket 0, displaces the
second pair's probe entry via a Robin-Hood swap). -/
def c1b : BddPtr := BddPtr.new 0 0 4

/-- The C1 scenario: on a table of capacity 4 (`new 2` gives
`nextPowTwo (2 * 9 / 5) = 4`), insert `(c1a, c1a)`, `(c1c, c1c)`,
`(c1b, c1b)` and then `(c1c, c1c)` again, returning the handles of the two
insertions of `(c1c, c1c)`. -/
def c1run : Option (BddPtr × BddPtr) := do
  let (_, t1) ← (BackedRobinHoodTable.new 2 0 0).get_or_insert c1hash 64 c1a c1a
  let (r2, t2) ← t1.get_or_insert c1hash 64 c1c c1c
  let (_, t3) ← t2.get_or_insert c1hash 64 c1b c1b
  let (r4, _) ← t3.get_or_insert c1hash 64 c1c c1c
  pure (r2, r4)

end RobinHood

namespace LruCache

/-- `ApplyCacheStats` from `src/manager/cache/lru.rs`.  The `utilization`
field is an `f64` computed only inside `get_stats` (occupied slots divided
by capacity) and is not part of the mutable counter state; it is omitted
here. -/
structure ApplyCacheStats where
  lookup_count : Nat
  miss_count : Nat
  conflict_count : Nat
deriving DecidableEq

/-- `ApplyCacheStats::new()`. -/
def ApplyCacheStats.new : ApplyCacheStats := ⟨0, 0, 0⟩

/-- `mask(p) = (1 << p) - 1`. -/
def mask (p : Nat) : Nat := (1 <<< p) - 1

/-- `wrap_add(v, p) = (v + 1) & mask(p)`. -/
def wrap_add (v p : Nat) : Nat := (v + 1) &&& mask p

/-- `pow_cap(v, p) = v & mask(p)`: cap `v` at `2^p`. -/
def pow_cap (v p : Nat) : Nat := v &&& mask p

/-- `Element<K, V>` from `src/manager/cache/lru.rs`. -/
structure Element (K V : Type) where
  key : K
  val : V
deriving DecidableEq

/-- `Lru<K, V>` from `src/manager/cache/lru.rs`: a fixed-size direct-mapped
table of optional elements, a `len` field, the capacity exponent `cap`
(capacity is `2^cap` slots) and the statistics counters. -/
structure Lru (K V : Type) where
  tbl : List (Option (Element K V))
  len : Nat
  cap : Nat
  stat : ApplyCacheStats
deriving DecidableEq

/-- `Lru::new(cap)`: `zero_vec(1 << cap)` slots (all `None`), `len = 0`. -/
def Lru.new {K V : Type} (cap : Nat) : Lru K V :=
  ⟨List.replicate (1 <<< cap) none, 0, cap, ApplyCacheStats.new⟩

/-- `Lru::len()`. -/
def Lru.length {K V : Type} (c : Lru K V) : Nat := c.len

/-- `Lru::insert(key, val)`: hash the key (the external `FnvHasher` is the
parameter `hashK`), mask to the low `cap` bits, overwrite the slot,
incrementing the conflict counter if it was occupied.  The slot position is
always below `2^cap`, so the Rust indexing cannot panic when the table is
well formed. -/
def Lru.insert {K V : Type} (c : Lru K V) (hashK : K → Nat) (key : K) (val : V) : Lru K V :=
  let pos := pow_cap (hashK key) c.cap
  let e : Element K V := ⟨key, val⟩
  { c with
    tbl := c.tbl.set pos (some e)
    stat := if (c.tbl.getD pos none).isSome then
        { c.stat with conflict_count := c.stat.conflict_count + 1 }
      else c.stat }

/-- `Lru::get(key)`: bump the lookup counter, hash and mask identically to
`insert`, return the stored value when the slot holds an element with an
equal key, otherwise bump the miss counter and return `None`. -/
def Lru.get {K V : Type} [DecidableEq K] (c : Lru K V) (hashK : K → Nat) (key : K) :
    Option V × Lru K V :=
  let c1 := { c with stat := { c.stat with lookup_count := c.stat.lookup_count + 1 } }
  let pos := pow_cap (hashK key) c.cap
  match c1.tbl.getD pos none with
  | some e =>
      if e.key = key then (some e.val, c1)
      else (none, { c1 with stat := { c1.stat with miss_count := c1.stat.miss_count + 1 } })
  | none => (none, { c1 with stat := { c1.stat with miss_count := c1.stat.miss_count + 1 } })

/-- An operation issued against an `Lru` cache: an insertion or a lookup. -/
inductive LruOp (K V : Type) where
  | ins (k : K) (v : V)
  | query (k : K)

/-- Execute one operation (lookups keep only the updated state). -/
def Lru.step {K V : Type} [DecidableEq K] (c : Lru K V) (hashK : K → Nat) :
    LruOp K V → Lru K V
  | .ins k v => c.insert hashK k v
  | .query k => (c.get hashK k).2

/-- Execute a sequence of operations from left to right. -/
def Lru.runOps {K V : Type} [DecidableEq K] (c : Lru K V) (hashK : K → Nat)
    (ops : List (LruOp K V)) : Lru K V :=
  ops.foldl (fun acc op => acc.step hashK op) c

/-- Insert a list of key-value pairs from left to right. -/
def Lru.insertMany {K V : Type} (c : Lru K V) (hashK : K → Nat)
    (kvs : List (K × V)) : Lru K V :=
  kvs.foldl (fun acc kv => acc.insert hashK kv.1 kv.2) c

end LruCache

namespace BddRepr

/-- Modelled from the spec: `repr::bdd::BddPtr` is not among the provided
sources.  Per spec §3/§4.1 a handle is one of the constant `false`, the
constant `true`, or a node reference carrying a variable label, a node
index and a complement bit; equality is word equality, here structural
equality. -/
inductive BddPtr where
  | ptrTrue
  | ptrFalse
  | node (var : Nat) (idx : Nat) (compl : Bool)
deriving DecidableEq

/-- `BddPtr::true_node()`. -/
def BddPtr.true_node : BddPtr := .ptrTrue

/-- `BddPtr::false_node()`. -/
def BddPtr.false_node : BddPtr := .ptrFalse

/-- `BddPtr::neg()`: per spec §4.1 it flips the complement bit in constant
time, and the constants `true` and `false` are related by complementation. -/
def BddPtr.neg : BddPtr → BddPtr
  | .ptrTrue => .ptrFalse
  | .ptrFalse => .ptrTrue
  | .node v i c => .node v i (!c)

end BddRepr

namespace BddApp

open BddRepr

/-- `Ite` from `src/manager/cache/bdd_app.rs`: an if-then-else triple,
assumed to be in standard form. -/
structure Ite where
  f : BddPtr
  g : BddPtr
  h : BddPtr
deriving DecidableEq

/-- `Ite::new(f, g, h)`: the Brace–Rudell–Bryant standardisation is
commented out in the source (dead code); the live implementation returns
the triple unchanged with complement flag `false`. -/
def Ite.new (f g h : BddPtr) : Ite × Bool := (⟨f, g, h⟩, false)

/-- `INITIAL_CAPACITY` from `src/manager/cache/bdd_app.rs`, given as a power
of two. -/
def INITIAL_CAPACITY : Nat := 20

/-- `BddApplyTable` from `src/manager/cache/bdd_app.rs`: an `Lru` cache
from standardised `Ite` triples to result pointers. -/
structure BddApplyTable where
  table : LruCache.Lru Ite BddPtr

/-- `BddApplyTable::new()`. -/
def BddApplyTable.new : BddApplyTable := ⟨LruCache.Lru.new INITIAL_CAPACITY⟩

/-- `BddApplyTable::insert(f, g, h, res)`: standardise the triple and store
`res`, negated when the (dead) standardisation reports a complement.  The
external FNV hash over the derived `Hash` of `Ite` is the parameter
`hashK`. -/
def BddApplyTable.insert (t : BddApplyTable) (hashK : Ite → Nat)
    (f g h res : BddPtr) : BddApplyTable :=
  let s := Ite.new f g h
  ⟨t.table.insert hashK s.1 (if s.2 then res.neg else res)⟩

/-- `BddApplyTable::get(f, g, h)`: standardise the triple, look it up, and
negate the result when the (dead) standardisation reports a complement. -/
def BddApplyTable.get (t : BddApplyTable) (hashK : Ite → Nat)
    (f g h : BddPtr) : Option BddPtr × BddApplyTable :=
  let s := Ite.new f g h
  let r := t.table.get hashK s.1
  (if s.2 then r.1.map BddPtr.neg else r.1, ⟨r.2⟩)

end BddApp

namespace Sdd

/-- Modelled from the spec: `repr::sdd::SddPtr` is not among the provided
sources.  Per spec §3 it carries a vtree-node index, an element index within
that vtree node's sub-table, and a complement bit. -/
structure SddPtr where
  idx : Nat
  vtree : Nat
  compl : Bool
deriving DecidableEq

/-- `SddPtr::new_node(idx, vtree)`: a non-complemented node handle. -/
def SddPtr.new_node (idx vtree : Nat) : SddPtr := ⟨idx, vtree, false⟩

/-- Modelled from the spec: `util::btree::BTree` as used for vtrees is not
among the provided sources.  Per spec §3 a vtree is a binary tree whose
leaves carry an ordered list of BDD variables. -/
inductive VTree where
  | leaf (vars : List Nat)
  | node (l : VTree) (r : VTree)
deriving DecidableEq

/-- The shape of one visited vtree position: a leaf with its variable list,
or an internal node. -/
inductive VNode where
  | leafVars (vars : List Nat)
  | internal
deriving DecidableEq

/-- `in_order_iter`: the in-order traversal of a vtree, as used by
`SddTable::new` to allocate one sub-table per position. -/
def VTree.inOrder : VTree → List VNode
  | .leaf vs => [.leafVars vs]
  | .node l r => l.inOrder ++ [.internal] ++ r.inOrder

/-- First index of `v` in a list, `none` if absent (helper for the
spec-modelled generic Robin-Hood table). -/
def findIndex {T : Type} [DecidableEq T] : List T → T → Option Nat
  | [], _ => none
  | x :: xs, v => if x = v then some 0 else (findIndex xs v).map (· + 1)

/-- Modelled from the spec: the generic `BackedRobinHoodTable<T>` of
`backing_store/robin_hood.rs` is not among the provided sources.  Per spec
§4.3 it interns values canonically: the element buffer is append-only and
dense in insertion order, `get_or_insert` returns the index of an existing
equal element or appends a fresh one, and `deref` indexes the buffer.  Only
the element buffer is modelled; the probe array is an internal acceleration
structure with no observable effect on these operations. -/
structure GenRHTable (T : Type) where
  elem : List T
deriving DecidableEq

/-- A fresh generic table; the requested size only reserves capacity. -/
def GenRHTable.new {T : Type} (_sz : Nat) : GenRHTable T := ⟨[]⟩

/-- Intern a value: the index of an existing equal element, else the index
of a freshly appended one. -/
def GenRHTable.get_or_insert {T : Type} [DecidableEq T] (t : GenRHTable T) (v : T) :
    Nat × GenRHTable T :=
  match findIndex t.elem v with
  | some i => (i, t)
  | none => (t.elem.length, ⟨t.elem ++ [v]⟩)

/-- Dereference a buffer index; Rust panics out of range, modelled as
`none`. -/
def GenRHTable.deref {T : Type} (t : GenRHTable T) (i : Nat) : Option T := t.elem[i]?

/-- Modelled from the spec: the nested `BddManager` stored at leaf positions
(`manager::rsbdd_manager`, not among the provided sources).  Only its
existence and variable order matter to the dispatch claims, so it is
modelled as the stored order. -/
structure BddManagerM where
  order : List Nat
deriving DecidableEq

/-- `SubTable` from `src/backing_store/sdd_table.rs`: a BDD allocator (a
nested manager plus the BDD-to-SDD variable-label map `conv`, modelled as an
association list) or an SDD allocator (a generic Robin-Hood table of
or-lists). -/
inductive SubTable where
  | bddSubTable (man : BddManagerM) (conv : List (Nat × Nat))
  | sddSubTable (tbl : GenRHTable (List (SddPtr × SddPtr)))
deriving DecidableEq

/-- `SddTable` from `src/backing_store/sdd_table.rs`: the SDD-to-BDD
variable-label map (modelled as an association list) and one sub-table per
vtree position. -/
structure SddTable where
  sdd_to_bdd : List (Nat × Nat)
  tables : List SubTable
deriving DecidableEq

/-- `DEFAULT_RH_SZ` from `src/backing_store/sdd_table.rs`. -/
def DEFAULT_RH_SZ : Nat := 32768

/-- The sub-table allocated by `SddTable::new` for one visited vtree
position: leaves get a BDD sub-table over a compacted linear order with the
two label maps, internal nodes get an empty generic Robin-Hood table. -/
def mkSubTable : VNode → SubTable
  | .leafVars vs =>
      .bddSubTable ⟨List.range vs.length⟩ (vs.enum.map fun p => (p.1, p.2))
  | .internal => .sddSubTable (GenRHTable.new DEFAULT_RH_SZ)

/-- The `sdd_to_bdd` entries contributed by one visited vtree position. -/
def mkSddToBdd : VNode → List (Nat × Nat)
  | .leafVars vs => vs.enum.map fun p => (p.2, p.1)
  | .internal => []

/-- `SddTable::new(vtree)`: walk the vtree in order, allocating one
sub-table per position and accumulating the label maps. -/
def SddTable.new (vt : VTree) : SddTable :=
  vt.inOrder.foldl
    (fun t n => { sdd_to_bdd := t.sdd_to_bdd ++ mkSddToBdd n
                  tables := t.tables ++ [mkSubTable n] })
    ⟨[], []⟩

/-- `SddTable::is_sdd(ptr)`. -/
def SddTable.is_sdd (t : SddTable) (p : SddPtr) : Bool :=
  match t.tables[p.vtree]? with
  | some (.sddSubTable _) => true
  | _ => false

/-- `SddTable::is_bdd(ptr)`. -/
def SddTable.is_bdd (t : SddTable) (p : SddPtr) : Bool :=
  match t.tables[p.vtree]? with
  | some (.bddSubTable _ _) => true
  | _ => false

/-- The two panic conditions of the SDD table: treating a BDD leaf position
as an SDD internal position or vice versa (`VTreeMismatch`, spec §7), and an
out-of-range index (a Rust indexing panic). -/
inductive SddError where
  | vtreeMismatch
  | badIndex
deriving DecidableEq

/-- `SddTable::get_or_insert_sdd(sdd, vnode)`: intern an or-list at an
internal position; the source panics with "invalid vnode: inserting SDD
into BDD" at a leaf position, modelled as `VTreeMismatch`. -/
def SddTable.get_or_insert_sdd (t : SddTable) (nodes : List (SddPtr × SddPtr))
    (vnode : Nat) : Except SddError (SddPtr × SddTable) :=
  match t.tables[vnode]? with
  | some (.sddSubTable tbl) =>
      let r := tbl.get_or_insert nodes
      .ok (SddPtr.new_node r.1 vnode, { t with tables := t.tables.set vnode (.sddSubTable r.2) })
  | some (.bddSubTable _ _) => .error .vtreeMismatch
  | none => .error .badIndex

/-- `SddTable::sdd_get_or(ptr)`: dereference an internal-node handle; the
source panics with "dereferencing BDD into SDD" at a BDD position, modelled
as `VTreeMismatch`. -/
def SddTable.sdd_get_or (t : SddTable) (p : SddPtr) :
    Except SddError (List (SddPtr × SddPtr)) :=
  match t.tables[p.vtree]? with
  | some (.sddSubTable tbl) =>
      match tbl.deref p.idx with
      | some l => .ok l
      | none => .error .badIndex
  | some (.bddSubTable _ _) => .error .vtreeMismatch
  | none => .error .badIndex

end Sdd

/-! ## Theorems -/

namespace RobinHood

/-- Bit-level description of `getField`: bit `i` of field `[s, e)` is bit
`s + i` of the word, provided `s + i < e`. -/
theorem testBit_getField (data s e i : Nat) (he : e ≤ 32) :
    (getField data s e).testBit i = (decide (s + i < e) && data.testBit (s + i)) := by
  unfold getField
  have h1 : 32 - e + s + i - (32 - e) = s + i := by omega
  have h2 : 32 - e ≤ 32 - e + s + i := by omega
  have h3 : (32 - e + s + i < 32) ↔ (s + i < e) := by omega
  simp only [Nat.testBit_shiftRight, Nat.testBit_mod_two_pow, Nat.testBit_shiftLeft, ge_iff_le]
  rw [h1]
  simp [h2, h3]

/-- Bit-level description of `setField`: inside `[s, e)` the bits come from
`val`, outside they come from `data` (with everything above bit 31 cleared). -/
theorem testBit_setField (data s e val i : Nat) (hse : s ≤ e) (he : e ≤ 32) :
    (setField data s e val).testBit i =
      (if s ≤ i ∧ i < e then val.testBit (i - s)
       else (decide (i < 32) && data.testBit i)) := by
  unfold setField
  simp only [Nat.testBit_or, Nat.testBit_and, Nat.testBit_xor, Nat.testBit_shiftLeft,
    Nat.one_shiftLeft, Nat.testBit_two_pow_sub_one, ge_iff_le]
  by_cases h1 : s ≤ i
  · by_cases h2 : i < e
    · have h3 : i - s < e - s := by omega
      have h4 : i < 32 := by omega
      rw [if_pos ⟨h1, h2⟩]
      simp [h1, h3, h4]
    · have h3 : ¬(i - s < e - s) := by omega
      rw [if_neg (by omega)]
      by_cases h4 : i < 32 <;> simp [h1, h3, h4]
  · rw [if_neg (by omega)]
    by_cases h4 : i < 32 <;> simp [h1, h4]

/-- Setting field `[s, e)` and reading it back yields the value reduced
modulo the field width. -/
theorem getField_setField_same (data s e val : Nat) (hse : s ≤ e) (he : e ≤ 32) :
    getField (setField data s e val) s e = val % 2 ^ (e - s) := by
  apply Nat.eq_of_testBit_eq
  intro i
  rw [testBit_getField _ _ _ _ he, testBit_setField _ _ _ _ _ hse he,
    Nat.testBit_mod_two_pow]
  by_cases h : s + i < e
  · rw [if_pos ⟨Nat.le_add_right _ _, h⟩]
    have h2 : s + i - s = i := by omega
    have h3 : i < e - s := by omega
    simp [h, h2, h3]
  · rw [if_neg (by omega)]
    have h3 : ¬(i < e - s) := by omega
    simp [h, h3]

/-- Setting field `[s, e)` leaves every disjoint field `[s', e')` unchanged. -/
theorem getField_setField_disjoint (data s e s' e' val : Nat) (hse : s ≤ e) (he : e ≤ 32)
    (he' : e' ≤ 32) (hdisj : e' ≤ s ∨ e ≤ s') :
    getField (setField data s e val) s' e' = getField data s' e' := by
  apply Nat.eq_of_testBit_eq
  intro i
  rw [testBit_getField _ _ _ _ he', testBit_getField _ _ _ _ he',
    testBit_setField _ _ _ _ _ hse he]
  by_cases h : s' + i < e'
  · rw [if_neg (by omega)]
    have h32 : s' + i < 32 := by omega
    simp [h32]
  · simp [h]

end RobinHood

namespace RobinHood

/-- C7: a `HashTableElement` packs occupied at bits `[0,1)`, offset at
`[1,6)`, hash at `[6,10)` and idx at `[10,32)`; for every field value within
its width, setting the field then reading it returns the value unchanged,
and setting one field leaves the other three fields unchanged. -/
theorem hashTableElement_bitfield_roundtrip_frame (x : HashTableElement)
    (occ off hsh ix : Nat) (h1 : occ < 2 ^ 1) (h2 : off < 2 ^ 5) (h3 : hsh < 2 ^ 4)
    (h4 : ix < 2 ^ 22) :
    ((x.set_occupied occ).occupied = occ ∧ (x.set_occupied occ).offset = x.offset ∧
      (x.set_occupied occ).hash = x.hash ∧ (x.set_occupied occ).idx = x.idx) ∧
    ((x.set_offset off).offset = off ∧ (x.set_offset off).occupied = x.occupied ∧
      (x.set_offset off).hash = x.hash ∧ (x.set_offset off).idx = x.idx) ∧
    ((x.set_hash hsh).hash = hsh ∧ (x.set_hash hsh).occupied = x.occupied ∧
      (x.set_hash hsh).offset = x.offset ∧ (x.set_hash hsh).idx = x.idx) ∧
    ((x.set_idx ix).idx = ix ∧ (x.set_idx ix).occupied = x.occupied ∧
      (x.set_idx ix).offset = x.offset ∧ (x.set_idx ix).hash = x.hash) := by
  refine ⟨⟨?_, ?_, ?_, ?_⟩, ⟨?_, ?_, ?_, ?_⟩, ⟨?_, ?_, ?_, ?_⟩, ⟨?_, ?_, ?_, ?_⟩⟩
  · show getField (setField x.data 0 1 occ) 0 1 = occ
    rw [getField_setField_same _ _ _ _ (by norm_num) (by norm_num)]
    exact Nat.mod_eq_of_lt h1
  · exact getField_setField_disjoint x.data 0 1 1 6 occ (by norm_num) (by norm_num)
      (by norm_num) (Or.inr (by norm_num))
  · exact getField_setField_disjoint x.data 0 1 6 10 occ (by norm_num) (by norm_num)
      (by norm_num) (Or.inr (by norm_num))
  · exact getField_setField_disjoint x.data 0 1 10 32 occ (by norm_num) (by norm_num)
      (by norm_num) (Or.inr (by norm_num))
  · show getField (setField x.data 1 6 off) 1 6 = off
    rw [getField_setField_same _ _ _ _ (by norm_num) (by norm_num)]
    exact Nat.mod_eq_of_lt h2
  · exact getField_setField_disjoint x.data 1 6 0 1 off (by norm_num) (by norm_num)
      (by norm_num) (Or.inl (by norm_num))
  · exact getField_setField_disjoint x.data 1 6 6 10 off (by norm_num) (by norm_num)
      (by norm_num) (Or.inr (by norm_num))
  · exact getField_setField_disjoint x.data 1 6 10 32 off (by norm_num) (by norm_num)
      (by norm_num) (Or.inr (by norm_num))
  · show getField (setField x.data 6 10 hsh) 6 10 = hsh
    rw [getField_setField_same _ _ _ _ (by norm_num) (by norm_num)]
    exact Nat.mod_eq_of_lt h3
  · exact getField_setField_disjoint x.data 6 10 0 1 hsh (by norm_num) (by norm_num)
      (by norm_num) (Or.inl (by norm_num))
  · exact getField_setField_disjoint x.data 6 10 1 6 hsh (by norm_num) (by norm_num)
      (by norm_num) (Or.inl (by norm_num))
  · exact getField_setField_disjoint x.data 6 10 10 32 hsh (by norm_num) (by norm_num)
      (by norm_num) (Or.inr (by norm_num))
  · show getField (setField x.data 10 32 ix) 10 32 = ix
    rw [getField_setField_same _ _ _ _ (by norm_num) (by norm_num)]
    exact Nat.mod_eq_of_lt h4
  · exact getField_setField_disjoint x.data 10 32 0 1 ix (by norm_num) (by norm_num)
      (by norm_num) (Or.inl (by norm_num))
  · exact getField_setField_disjoint x.data 10 32 1 6 ix (by norm_num) (by norm_num)
      (by norm_num) (Or.inl (by norm_num))
  · exact getField_setField_disjoint x.data 10 32 6 10 ix (by norm_num) (by norm_num)
      (by norm_num) (Or.inl (by norm_num))

/-- Witness for C7 at a concrete element and concrete field values. -/
theorem hashTableElement_bitfield_witness :
    (77 : Nat) < 2 ^ 22 ∧ ((⟨123⟩ : HashTableElement).set_idx 77).idx = 77 :=
  ⟨by norm_num,
   (hashTableElement_bitfield_roundtrip_frame ⟨123⟩ 1 3 5 77 (by norm_num) (by norm_num)
     (by norm_num) (by norm_num)).2.2.2.1⟩

end RobinHood

namespace RobinHood

/-- C9 counterexample: constructing a `HashTableElement` with an
element-buffer index of `2^22` does not fail — it stores the index truncated
to its low 22 bits, here `0`. -/
theorem hashTableElement_overflow_counterexample :
    (HashTableElement.new (2 ^ 22) 0).idx = 0 := by decide

/-- C9 amended: `HashTableElement::new` never fails; a field value exceeding
its bit range is silently truncated by the setter mask (`idx` is stored
modulo `2^22`), and the element is returned as a normally occupied cell.  No
`OverflowError` exists in the source. -/
theorem hashTableElement_new_truncates (idx hash : Nat) :
    (HashTableElement.new idx hash).idx = idx % 2 ^ 22 ∧
    (HashTableElement.new idx hash).occupied = 1 := by
  constructor
  · show getField (setField _ 10 32 idx) 10 32 = idx % 2 ^ 22
    rw [getField_setField_same _ _ _ _ (by norm_num) (by norm_num)]
  · show getField (setField _ 10 32 idx) 0 1 = 1
    rw [getField_setField_disjoint _ _ _ _ _ _ (by norm_num) (by norm_num) (by norm_num)
      (Or.inl (by norm_num))]
    show getField (setField _ 6 10 _) 0 1 = 1
    rw [getField_setField_disjoint _ _ _ _ _ _ (by norm_num) (by norm_num) (by norm_num)
      (Or.inl (by norm_num))]
    show getField (setField 0 0 1 1) 0 1 = 1
    decide

/-- C1 (violation trace): on a capacity-4 table, inserting `(c1a, c1a)`,
`(c1c, c1c)`, `(c1b, c1b)` and then `(c1c, c1c)` again returns element
index 1 for the first insertion of `(c1c, c1c)` but element index 3 for the
second: during the third insertion a Robin-Hood swap displaced the probe
entry of `(c1c, c1c)` and the walk ended on an unoccupied cell with
`found.is_some()`, where the source returns without writing the displaced
entry back, losing it; `get_or_insert` on the identical pair then issues a
distinct fresh handle, violating canonicity. -/
theorem get_or_insert_duplicate_handle_bug :
    c1run = some (BddPtr.new 0 0 1, BddPtr.new 0 0 3) ∧
    BddPtr.new 0 0 1 ≠ BddPtr.new 0 0 3 := by
  refine ⟨by decide, by decide⟩

/-- The probe loop of `get_or_insert` only ever appends to the element
buffer: whenever it returns, the new buffer is the old one plus a
(possibly empty) appended tail. -/
theorem goiLoop_elem_extends (low high : BddPtr) (var tbl_id cap : Nat) :
    ∀ (fuel pos : Nat) (searcher : HashTableElement) (found : Option BddPtr)
      (tbl : List HashTableElement) (elem : List ToplessBdd) (len : Nat)
      (p : BddPtr) (tbl' : List HashTableElement) (elem' : List ToplessBdd) (len' : Nat),
      goiLoop low high var tbl_id cap fuel pos searcher found tbl elem len =
        some (p, tbl', elem', len') → ∃ tail, elem' = elem ++ tail := by
  intro fuel
  induction fuel with
  | zero =>
      intro pos searcher found tbl elem len p tbl' elem' len' h
      simp [goiLoop] at h
  | succ n ih =>
      intro pos searcher found tbl elem len p tbl' elem' len' h
      simp only [goiLoop] at h
      split at h
      · split at h
        · simp only [Option.some.injEq, Prod.mk.injEq] at h
          exact ⟨[], by simp [h.2.2.1]⟩
        · split at h
          · split at h
            · obtain ⟨tail, htail⟩ := ih _ _ _ _ _ _ _ _ _ _ h
              exact ⟨ToplessBdd.new low high :: tail, by simpa using htail⟩
            · exact ih _ _ _ _ _ _ _ _ _ _ h
          · exact ih _ _ _ _ _ _ _ _ _ _ h
      · split at h
        · simp only [Option.some.injEq, Prod.mk.injEq] at h
          exact ⟨[ToplessBdd.new low high], by simp [h.2.2.1]⟩
        · simp only [Option.some.injEq, Prod.mk.injEq] at h
          exact ⟨[], by simp [h.2.2.1]⟩

/-- C2 amended: `get_or_insert` never grows the probe array — whenever it
returns, the capacity (and the owning variable and table id) are exactly
those fixed at construction, and the element buffer has only been appended
to.  (There is no growth path in the source: the capacity check is a bare
assertion, so insertions beyond the fixed capacity fail or do not
terminate.) -/
theorem get_or_insert_no_growth (t : BackedRobinHoodTable)
    (h : BddPtr → BddPtr → Nat) (fuel : Nat) (low high : BddPtr)
    (p : BddPtr) (t' : BackedRobinHoodTable)
    (hres : t.get_or_insert h fuel low high = some (p, t')) :
    t'.cap = t.cap ∧ t'.var = t.var ∧ t'.tbl_id = t.tbl_id ∧
    ∃ tail, t'.elem = t.elem ++ tail := by
  unfold BackedRobinHoodTable.get_or_insert at hres
  split at hres
  · dsimp only at hres
    split at hres
    · exact absurd hres (by simp)
    · simp only [Option.some.injEq, Prod.mk.injEq] at hres
      obtain ⟨-, rfl⟩ := hres
      refine ⟨rfl, rfl, rfl, ?_⟩
      rename_i heq
      exact goiLoop_elem_extends _ _ _ _ _ _ _ _ _ _ _ _ _ _ _ _ heq
  · exact absurd hres (by simp)

/-- Witness for C2's amended theorem: a successful concrete insertion into a
fresh capacity-1 table preserves the capacity. -/
theorem get_or_insert_no_growth_witness :
    ((BackedRobinHoodTable.new 1 0 0).get_or_insert (fun _ _ => 0) 10 c1a c1a =
      some (BddPtr.new 0 0 0,
        ⟨[⟨1⟩], [⟨c1a, c1a⟩], 0, 0, 1, 1⟩)) ∧
    (⟨[⟨1⟩], [⟨c1a, c1a⟩], 0, 0, 1, 1⟩ : BackedRobinHoodTable).cap =
      (BackedRobinHoodTable.new 1 0 0).cap :=
  ⟨by decide,
   (get_or_insert_no_growth (BackedRobinHoodTable.new 1 0 0) (fun _ _ => 0) 10 c1a c1a
     (BddPtr.new 0 0 0) ⟨[⟨1⟩], [⟨c1a, c1a⟩], 0, 0, 1, 1⟩ (by decide)).1⟩

/-- C2 counterexample: on a fresh capacity-1 table the very first insertion
already satisfies the growth condition `(len + 1) > capacity × 0.8`
(`1 > 0.8`), yet after the call the capacity is still 1 — no growth by a
factor of at least 2 happened — and the next insertion of a distinct pair
fails the capacity assertion (a panic), so insertion does fail for capacity
reasons. -/
theorem get_or_insert_no_growth_counterexample :
    5 * ((BackedRobinHoodTable.new 1 0 0).len + 1) > 4 * (BackedRobinHoodTable.new 1 0 0).cap ∧
    ((BackedRobinHoodTable.new 1 0 0).get_or_insert (fun _ _ => 0) 10 c1a c1a =
      some (BddPtr.new 0 0 0, ⟨[⟨1⟩], [⟨c1a, c1a⟩], 0, 0, 1, 1⟩)) ∧
    (⟨[⟨1⟩], [⟨c1a, c1a⟩], 0, 0, 1, 1⟩ : BackedRobinHoodTable).cap <
      2 * (BackedRobinHoodTable.new 1 0 0).cap ∧
    (⟨[⟨1⟩], [⟨c1a, c1a⟩], 0, 0, 1, 1⟩ : BackedRobinHoodTable).get_or_insert
      (fun _ _ => 0) 10 c1c c1c = none := by
  refine ⟨by decide, by decide, by decide, by decide⟩

end RobinHood

namespace LruCache

/-- The masked position is always below the power-of-two capacity. -/
theorem pow_cap_lt (v p : Nat) : pow_cap v p < 2 ^ p := by
  unfold pow_cap mask
  rw [Nat.one_shiftLeft, Nat.and_pow_two_sub_one_eq_mod]
  exact Nat.mod_lt _ (Nat.pow_pos (by norm_num))

/-- `insert` keeps the slot count. -/
theorem Lru.insert_tbl_length {K V : Type} (c : Lru K V) (hashK : K → Nat) (k : K) (v : V) :
    (c.insert hashK k v).tbl.length = c.tbl.length := by
  simp [Lru.insert]

/-- `get` changes only the statistics counters. -/
theorem Lru.get_state {K V : Type} [DecidableEq K] (c : Lru K V) (hashK : K → Nat) (k : K) :
    ((c.get hashK k).2).tbl = c.tbl ∧ ((c.get hashK k).2).cap = c.cap ∧
    ((c.get hashK k).2).len = c.len := by
  unfold Lru.get
  dsimp only
  split
  · split
    · exact ⟨rfl, rfl, rfl⟩
    · exact ⟨rfl, rfl, rfl⟩
  · exact ⟨rfl, rfl, rfl⟩

/-- Running any operation sequence never changes the `len` field. -/
theorem Lru.runOps_len {K V : Type} [DecidableEq K] (hashK : K → Nat) :
    ∀ (ops : List (LruOp K V)) (c : Lru K V), (c.runOps hashK ops).len = c.len := by
  intro ops
  induction ops with
  | nil => intro c; rfl
  | cons op ops ih =>
      intro c
      have h1 : (c.step hashK op).len = c.len := by
        cases op with
        | ins k v => rfl
        | query k => exact (Lru.get_state c hashK k).2.2
      exact (ih (c.step hashK op)).trans h1

/-- C10: the public `Lru::len()` method returns 0 after every sequence of
insert and get operations on a freshly constructed cache — `insert` never
increments the `len` field and `get` never touches it, so the reported
length never reflects the number of occupied slots. -/
theorem lru_len_always_zero {K V : Type} [DecidableEq K] (hashK : K → Nat) (p : Nat)
    (ops : List (LruOp K V)) :
    ((Lru.new p : Lru K V).runOps hashK ops).length = 0 ∧
    (∀ (c : Lru K V) (k : K) (v : V), (c.insert hashK k v).length = c.length) ∧
    (∀ (c : Lru K V) (k : K), ((c.get hashK k).2).length = c.length) := by
  refine ⟨?_, fun c k v => rfl, fun c k => (Lru.get_state c hashK k).2.2⟩
  exact Lru.runOps_len hashK ops (Lru.new p)

/-- C5: an `Lru` cache built with parameter `p` has exactly `2^p` slots;
`insert` and `get` leave the slot count and the `cap` field unchanged;
`insert` overwrites exactly the slot its key hashes to, incrementing the
conflict counter precisely when that slot was occupied; there is no growth. -/
theorem lru_fixed_capacity {K V : Type} [DecidableEq K] (hashK : K → Nat) (p : Nat)
    (c : Lru K V) (k : K) (v : V) :
    (Lru.new p : Lru K V).tbl.length = 2 ^ p ∧ (Lru.new p : Lru K V).cap = p ∧
    (c.insert hashK k v).tbl.length = c.tbl.length ∧ (c.insert hashK k v).cap = c.cap ∧
    ((c.get hashK k).2).tbl.length = c.tbl.length ∧ ((c.get hashK k).2).cap = c.cap ∧
    (c.insert hashK k v).tbl = c.tbl.set (pow_cap (hashK k) c.cap) (some ⟨k, v⟩) ∧
    (c.insert hashK k v).stat.conflict_count =
      c.stat.conflict_count +
        (if (c.tbl.getD (pow_cap (hashK k) c.cap) none).isSome then 1 else 0) := by
  refine ⟨by simp [Lru.new, Nat.one_shiftLeft], rfl, Lru.insert_tbl_length c hashK k v, rfl,
    by rw [(Lru.get_state c hashK k).1], (Lru.get_state c hashK k).2.1, rfl, ?_⟩
  unfold Lru.insert
  dsimp only
  split
  · rfl
  · simp

/-- `insertMany` keeps the capacity exponent. -/
theorem Lru.insertMany_cap {K V : Type} (hashK : K → Nat) :
    ∀ (kvs : List (K × V)) (c : Lru K V), (c.insertMany hashK kvs).cap = c.cap := by
  intro kvs
  induction kvs with
  | nil => intro c; rfl
  | cons kv kvs ih => intro c; exact (ih (c.insert hashK kv.1 kv.2)).trans rfl

/-- Inserting pairs that all hash away from slot `q` leaves slot `q`
untouched. -/
theorem Lru.insertMany_getD_ne {K V : Type} (hashK : K → Nat) :
    ∀ (kvs : List (K × V)) (c : Lru K V) (q : Nat),
      (∀ kv ∈ kvs, pow_cap (hashK kv.1) c.cap ≠ q) →
      (c.insertMany hashK kvs).tbl.getD q none = c.tbl.getD q none := by
  intro kvs
  induction kvs with
  | nil => intro c q _; rfl
  | cons kv kvs ih =>
      intro c q hne
      have hcap : (c.insert hashK kv.1 kv.2).cap = c.cap := rfl
      have h1 : (c.insert hashK kv.1 kv.2).tbl.getD q none = c.tbl.getD q none := by
        unfold Lru.insert
        dsimp only
        rw [List.getD_eq_getElem?_getD, List.getD_eq_getElem?_getD,
          List.getElem?_set_ne (hne kv (by simp))]
      have h2 := ih (c.insert hashK kv.1 kv.2) q
        (fun kv' h' => by rw [hcap]; exact hne kv' (List.mem_cons_of_mem _ h'))
      exact h2.trans h1

/-- C3: after `insert(k, v)`, if every intervening insertion's key hashes
(masked to the low `cap` bits) to a different slot than `k`, then `get(k)`
returns `Some v`. -/
theorem lru_insert_get_roundtrip {K V : Type} [DecidableEq K] (hashK : K → Nat)
    (c : Lru K V) (k : K) (v : V) (rest : List (K × V))
    (hwf : c.tbl.length = 2 ^ c.cap)
    (hdiff : ∀ kv ∈ rest, pow_cap (hashK kv.1) c.cap ≠ pow_cap (hashK k) c.cap) :
    (((c.insert hashK k v).insertMany hashK rest).get hashK k).1 = some v := by
  have hcapM : ((c.insert hashK k v).insertMany hashK rest).cap = c.cap :=
    Lru.insertMany_cap hashK rest (c.insert hashK k v)
  have hslot1 : (c.insert hashK k v).tbl.getD (pow_cap (hashK k) c.cap) none =
      some ⟨k, v⟩ := by
    unfold Lru.insert
    dsimp only
    rw [List.getD_eq_getElem?_getD,
      List.getElem?_set_self (by rw [hwf]; exact pow_cap_lt _ _)]
    rfl
  have hslotM : ((c.insert hashK k v).insertMany hashK rest).tbl.getD
      (pow_cap (hashK k) c.cap) none = some ⟨k, v⟩ := by
    rw [Lru.insertMany_getD_ne hashK rest (c.insert hashK k v) _
      (fun kv h => hdiff kv h)]
    exact hslot1
  unfold Lru.get
  dsimp only
  rw [hcapM, hslotM]
  simp

/-- Witness for C3 on a two-slot cache with identity hash. -/
theorem lru_insert_get_roundtrip_witness :
    ((Lru.new 1 : Lru Nat Nat).tbl.length = 2 ^ (Lru.new 1 : Lru Nat Nat).cap) ∧
    ((((Lru.new 1 : Lru Nat Nat).insert (fun n => n) 0 5).insertMany (fun n => n)
        [(1, 7)]).get (fun n => n) 0).1 = some 5 :=
  ⟨by decide,
   lru_insert_get_roundtrip (fun n => n) (Lru.new 1) 0 5 [(1, 7)] (by decide) (by decide)⟩

/-- Every occupied slot after running an operation sequence was either
written by an insertion in the sequence or was already occupied with the
same element before it. -/
theorem Lru.runOps_slot_origin {K V : Type} [DecidableEq K] (hashK : K → Nat) :
    ∀ (ops : List (LruOp K V)) (c : Lru K V) (i : Nat) (e : Element K V),
      (c.runOps hashK ops).tbl.getD i none = some e →
      (LruOp.ins e.key e.val ∈ ops ∨ c.tbl.getD i none = some e) := by
  intro ops
  induction ops with
  | nil => intro c i e h; exact Or.inr h
  | cons op ops ih =>
      intro c i e h
      rcases ih (c.step hashK op) i e h with hmem | hslot
      · exact Or.inl (List.mem_cons_of_mem _ hmem)
      · cases op with
        | query k =>
            have hq : (c.step hashK (LruOp.query k)).tbl = c.tbl :=
              (Lru.get_state c hashK k).1
            rw [hq] at hslot
            exact Or.inr hslot
        | ins k' v' =>
            unfold Lru.step Lru.insert at hslot
            dsimp only at hslot
            rw [List.getD_eq_getElem?_getD, List.getElem?_set] at hslot
            split at hslot
            · split at hslot
              · simp only [Option.getD_some, Option.some.injEq] at hslot
                subst hslot
                exact Or.inl (List.mem_cons_self _ _)
              · simp at hslot
            · rw [List.getD_eq_getElem?_getD]
              exact Or.inr hslot

/-- C4: whenever `get(k)` returns `Some v` after any sequence of insert and
get operations on a fresh cache, an `insert(k, v)` occurred in that
sequence. -/
theorem lru_get_sound {K V : Type} [DecidableEq K] (hashK : K → Nat) (p : Nat)
    (ops : List (LruOp K V)) (k : K) (v : V)
    (hget : (((Lru.new p : Lru K V).runOps hashK ops).get hashK k).1 = some v) :
    LruOp.ins k v ∈ ops := by
  unfold Lru.get at hget
  dsimp only at hget
  rcases hm : ((Lru.new p : Lru K V).runOps hashK ops).tbl.getD
      (pow_cap (hashK k) ((Lru.new p : Lru K V).runOps hashK ops).cap) none with _ | e
  · rw [hm] at hget
    simp at hget
  · rw [hm] at hget
    dsimp only at hget
    by_cases hk : e.key = k
    · rw [if_pos hk] at hget
      simp only [Option.some.injEq] at hget
      rcases Lru.runOps_slot_origin hashK ops (Lru.new p) _ e hm with hmem | hbase
      · rwa [hk, hget] at hmem
      · exfalso
        rw [Lru.new] at hbase
        simp only [List.getD_eq_getElem?_getD, List.getElem?_replicate] at hbase
        split at hbase <;> simp at hbase
    · rw [if_neg hk] at hget
      simp at hget

/-- Witness for C4: a single insertion followed by a successful lookup. -/
theorem lru_get_sound_witness :
    ((((Lru.new 1 : Lru Nat Nat).runOps (fun n => n) [LruOp.ins 0 5]).get
        (fun n => n) 0).1 = some 5) ∧
    LruOp.ins (0 : Nat) (5 : Nat) ∈ [LruOp.ins (0 : Nat) (5 : Nat)] :=
  ⟨by decide, lru_get_sound (fun n => n) 1 [LruOp.ins 0 5] 0 5 (by decide)⟩

end LruCache

namespace BddRepr

/-- Negation never fixes a handle: the complement bit (or the constant) is
flipped. -/
theorem BddPtr.neg_ne_self (x : BddPtr) : x.neg ≠ x := by
  cases x <;> simp [BddPtr.neg]

end BddRepr

namespace LruCache

/-- On a fresh cache, after inserting under key `k1`, looking up a different
key `k2` misses: either the two keys share a slot and the stored key
comparison fails, or the slot of `k2` is still empty. -/
theorem Lru.get_insert_new_ne {K V : Type} [DecidableEq K] (hashK : K → Nat) (p : Nat)
    (k1 k2 : K) (v : V) (hne : k1 ≠ k2) :
    (((Lru.new p : Lru K V).insert hashK k1 v).get hashK k2).1 = none := by
  unfold Lru.get Lru.insert Lru.new
  dsimp only
  by_cases hpos : pow_cap (hashK k1) p = pow_cap (hashK k2) p
  · rw [List.getD_eq_getElem?_getD, ← hpos,
      List.getElem?_set_self (by rw [List.length_replicate, Nat.one_shiftLeft]; exact pow_cap_lt _ _)]
    simp [hne]
  · rw [List.getD_eq_getElem?_getD, List.getElem?_set_ne hpos, List.getElem?_replicate]
    split
    · rename_i heq
      split at heq <;> simp at heq
    · rfl

end LruCache

namespace BddApp

open BddRepr

/-- C6 (scenario S4): after `insert(f, true, g, r)` into a fresh
`BddApplyTable`, a subsequent `get(f.neg(), g.neg(), false)` either returns
`None` or returns `r.neg()` — never any other value.  (With the live
identity standardisation the two standardised keys always differ, because
`f.neg() ≠ f`, so the lookup in fact always misses.) -/
theorem bddApplyTable_ite_neg_safe (hashK : Ite → Nat) (f g r : BddPtr) :
    ((BddApplyTable.new.insert hashK f BddPtr.true_node g r).get hashK
        f.neg g.neg BddPtr.false_node).1 = none ∨
    ((BddApplyTable.new.insert hashK f BddPtr.true_node g r).get hashK
        f.neg g.neg BddPtr.false_node).1 = some r.neg := by
  left
  have hne : (⟨f, BddPtr.true_node, g⟩ : Ite) ≠ ⟨f.neg, g.neg, BddPtr.false_node⟩ := by
    intro hcontra
    exact BddPtr.neg_ne_self f (congrArg Ite.f hcontra).symm
  show ((LruCache.Lru.new INITIAL_CAPACITY).insert hashK
      (⟨f, BddPtr.true_node, g⟩ : Ite) r |>.get hashK
      (⟨f.neg, g.neg, BddPtr.false_node⟩ : Ite)).1 = none
  exact LruCache.Lru.get_insert_new_ne hashK INITIAL_CAPACITY _ _ r hne

end BddApp

namespace Sdd

/-- A successful `findIndex` points at an equal element. -/
theorem findIndex_some {T : Type} [DecidableEq T] :
    ∀ (l : List T) (v : T) (i : Nat), findIndex l v = some i → l[i]? = some v := by
  intro l
  induction l with
  | nil => intro v i h; simp [findIndex] at h
  | cons x xs ih =>
      intro v i h
      unfold findIndex at h
      split at h
      · rename_i hx
        simp only [Option.some.injEq] at h
        subst h
        simp [hx]
      · rcases hm : findIndex xs v with _ | j
        · rw [hm] at h; simp at h
        · rw [hm] at h
          simp only [Option.map_some', Option.some.injEq] at h
          subst h
          simpa using ih v j hm

/-- Interning a value and dereferencing the returned index yields the value
back, whether it was found or freshly appended. -/
theorem GenRHTable.get_or_insert_deref {T : Type} [DecidableEq T]
    (t : GenRHTable T) (v : T) :
    (t.get_or_insert v).2.deref (t.get_or_insert v).1 = some v := by
  unfold GenRHTable.get_or_insert GenRHTable.deref
  rcases hm : findIndex t.elem v with _ | i
  · simp [List.getElem?_concat_length]
  · simpa using findIndex_some t.elem v i hm

/-- The tables built by the `SddTable::new` fold are the initial tables plus
one sub-table per visited vtree position. -/
theorem foldl_new_tables (L : List VNode) :
    ∀ t0 : SddTable,
      (L.foldl (fun t n => { sdd_to_bdd := t.sdd_to_bdd ++ mkSddToBdd n
                             tables := t.tables ++ [mkSubTable n] }) t0).tables
        = t0.tables ++ L.map mkSubTable := by
  induction L with
  | nil => intro t0; simp
  | cons n L ih =>
      intro t0
      rw [List.foldl_cons, ih]
      simp

/-- The sub-table at position `i` of a freshly built SDD table is determined
by the `i`-th visited vtree position. -/
theorem SddTable.new_tables (vt : VTree) :
    (SddTable.new vt).tables = vt.inOrder.map mkSubTable := by
  unfold SddTable.new
  rw [foldl_new_tables]
  simp

/-- C8: in an `SddTable` built from a vtree, `get_or_insert_sdd` at a
position whose vtree node is a leaf fails with `VTreeMismatch`, and so does
`sdd_get_or` on any pointer whose vtree index holds a BDD leaf sub-table;
at an internal position `get_or_insert_sdd` succeeds and `sdd_get_or` on
the returned pointer yields the stored or-list. -/
theorem sddTable_dispatch (vt : VTree) (i : Nat) (vs : List Nat)
    (nodes : List (SddPtr × SddPtr)) (j : Nat) (cb : Bool) :
    (vt.inOrder[i]? = some (.leafVars vs) →
      (SddTable.new vt).get_or_insert_sdd nodes i = .error .vtreeMismatch ∧
      (SddTable.new vt).sdd_get_or ⟨j, i, cb⟩ = .error .vtreeMismatch) ∧
    (vt.inOrder[i]? = some .internal →
      ∃ (q : SddPtr) (t' : SddTable),
        (SddTable.new vt).get_or_insert_sdd nodes i = .ok (q, t') ∧
        t'.sdd_get_or q = .ok nodes) := by
  have htab : (SddTable.new vt).tables[i]? = (vt.inOrder[i]?).map mkSubTable := by
    rw [SddTable.new_tables, List.getElem?_map]
  constructor
  · intro hleaf
    have h1 : (SddTable.new vt).tables[i]? =
        some (.bddSubTable ⟨List.range vs.length⟩ (vs.enum.map fun p => (p.1, p.2))) := by
      rw [htab, hleaf]; rfl
    constructor
    · unfold SddTable.get_or_insert_sdd
      rw [h1]
    · unfold SddTable.sdd_get_or
      dsimp only
      rw [h1]
  · intro hint
    have h1 : (SddTable.new vt).tables[i]? = some (.sddSubTable ⟨[]⟩) := by
      rw [htab, hint]; rfl
    have hlen : i < (SddTable.new vt).tables.length := by
      by_contra hge
      rw [List.getElem?_eq_none (by omega)] at h1
      exact Option.noConfusion h1
    refine ⟨SddPtr.new_node 0 i,
      { SddTable.new vt with
        tables := (SddTable.new vt).tables.set i (.sddSubTable ⟨[nodes]⟩) }, ?_, ?_⟩
    · unfold SddTable.get_or_insert_sdd
      rw [h1]
      rfl
    · unfold SddTable.sdd_get_or
      dsimp only [SddPtr.new_node]
      rw [List.getElem?_set_self (by simpa using hlen)]
      rfl

/-- Witness for C8 on the vtree `Node(Leaf [0, 1], Leaf [2])`: position 0 is
a leaf (both operations fail with `VTreeMismatch`), position 1 is internal
(interning succeeds and dereferencing returns the stored or-list). -/
theorem sddTable_dispatch_witness :
    ((VTree.node (.leaf [0, 1]) (.leaf [2])).inOrder[0]? = some (VNode.leafVars [0, 1])) ∧
    ((SddTable.new (VTree.node (.leaf [0, 1]) (.leaf [2]))).get_or_insert_sdd
        [(SddPtr.new_node 0 0, SddPtr.new_node 0 2)] 0 = .error .vtreeMismatch) ∧
    ((SddTable.new (VTree.node (.leaf [0, 1]) (.leaf [2]))).sdd_get_or ⟨0, 0, false⟩ =
        .error .vtreeMismatch) ∧
    ((VTree.node (.leaf [0, 1]) (.leaf [2])).inOrder[1]? = some VNode.internal) ∧
    (∃ (q : SddPtr) (t' : SddTable),
      (SddTable.new (VTree.node (.leaf [0, 1]) (.leaf [2]))).get_or_insert_sdd
          [(SddPtr.new_node 0 0, SddPtr.new_node 0 2)] 1 = .ok (q, t') ∧
      t'.sdd_get_or q = .ok [(SddPtr.new_node 0 0, SddPtr.new_node 0 2)]) :=
  ⟨by decide,
   ((sddTable_dispatch (VTree.node (.leaf [0, 1]) (.leaf [2])) 0 [0, 1]
       [(SddPtr.new_node 0 0, SddPtr.new_node 0 2)] 0 false).1 (by decide)).1,
   ((sddTable_dispatch (VTree.node (.leaf [0, 1]) (.leaf [2])) 0 [0, 1]
       [(SddPtr.new_node 0 0, SddPtr.new_node 0 2)] 0 false).1 (by decide)).2,
   by decide,
   (sddTable_dispatch (VTree.node (.leaf [0, 1]) (.leaf [2])) 1 []
       [(SddPtr.new_node 0 0, SddPtr.new_node 0 2)] 0 false).2 (by decide)⟩

end Sdd
